import Mathlib

/-!
# Verification of the Whisper in-memory chat cache (`src/server/utils/lib.js`)

The JavaScript module keeps three insertion-ordered, string-keyed objects
(`waiting_users`, `active_users`, `chats`) synchronized with a durable store.
We embed the module shallowly: JS objects become association lists over
`String` keys that preserve insertion order (assignment to an existing key
updates the value in place, assignment to a fresh key appends, `delete`
removes), store effects become explicit traces or boolean outcomes, and
`Math.floor(Math.random() * n)` becomes an explicit index argument.

Real JS objects never hold two entries for the same key; all states built by
the embedded operations keep the key list duplicate-free, and well-formedness
hypotheses record this where a proof needs it.
-/

set_option maxHeartbeats 1000000

namespace Whisper

section AListDefs

variable {α : Type}

/-- A JS object: an insertion-ordered association list with string keys. -/
abbrev AList (α : Type) := List (String × α)

/-- The key list, in insertion order (JS `Object.keys`). -/
def akeys (l : AList α) : List String :=
  l.map Prod.fst

/-- JS property read `obj[k]`: the value at the first entry with key `k`. -/
def alookup : AList α → String → Option α
  | [], _ => none
  | p :: t, k => if p.1 = k then some p.2 else alookup t k

/-- Whether the key is present. -/
def hasKey : AList α → String → Bool
  | [], _ => false
  | p :: t, k => p.1 == k || hasKey t k

/-- JS assignment `obj[k] = v`: update in place if the key exists (keeping its
position in iteration order), otherwise append. -/
def aset : AList α → String → α → AList α
  | [], k, v => [(k, v)]
  | p :: t, k, v => if p.1 = k then (k, v) :: t else p :: aset t k v

/-- JS `delete obj[k]`: remove the entry with key `k` if present. -/
def aerase : AList α → String → AList α
  | [], _ => []
  | p :: t, k => if p.1 = k then aerase t k else p :: aerase t k

end AListDefs


/-! ## Data model (the JSDoc typedefs of `lib.js`) -/

/-- An `ActiveUser` cache object (also used for waiting users). `id` is the
store-assigned identity (absent for a fresh waiting user); `socketIds` stands
in for both the socket connections and their ids (the connections are only
used for the transport-side `join`, which is not modelled). -/
structure User where
  id : Option String
  email : Option String
  loginId : String
  socketIds : List String
  currentChatId : Option String
  chatIds : List String
  deriving Repr, DecidableEq

/-- The derived key: the JS Proxy computes `emailOrLoginId` as
`email ?? loginId`. -/
def User.emailOrLoginId (u : User) : String :=
  u.email.getD u.loginId

/-- A cached message. `mtype` is the JS `type` field
(`'message' | 'room_notification'`). -/
structure Message where
  id : String
  message : String
  senderId : String
  time : String
  mtype : String
  deriving Repr, DecidableEq

/-- A cached chat: member derived ids plus the message map keyed by
message id. -/
structure Chat where
  id : String
  userIds : List String
  messages : AList Message
  createdAt : String
  deriving Repr, DecidableEq

/-- The module-level mutable state: the three maps of `lib.js`. -/
structure LibState where
  waiting_users : AList User
  active_users : AList User
  chats : AList Chat
  deriving Repr, DecidableEq

/-! ## Operations of `lib.js` -/

/-- `getChat(chatId)`. -/
def getChat (s : LibState) (chatId : String) : Option Chat :=
  alookup s.chats chatId

/-- The match test of the `getActiveUser` linear scan (string-search case):
a held socket id, the email, or the login id. JS `user.email == search` is
false when `email` is `null`. -/
def userMatches (u : User) (search : String) : Bool :=
  u.socketIds.contains search || u.email == some search || u.loginId == search

/-- `getActiveUser(search)` together with the key of the entry it found (the
JS function returns a live reference into `active_users`; mutations through
that reference land at this key). -/
def getActiveUserEntry (s : LibState) (search : String) : Option (String × User) :=
  s.active_users.find? (fun p => userMatches p.2 search)

/-- `getActiveUser(search)`, string-search case: first match in insertion
order, `null` (here `none`) if no active user matches. -/
def getActiveUser (s : LibState) (search : String) : Option User :=
  (getActiveUserEntry s search).map Prod.snd

/-- `getChatsCount(emailOrLoginId)`: the JS body is
`getActiveUser(emailOrLoginId).chatIds.length` with no null guard; `none`
models the TypeError thrown when `getActiveUser` returns `null`. -/
def getChatsCount (s : LibState) (emailOrLoginId : String) : Option Nat :=
  (getActiveUser s emailOrLoginId).map (fun u => u.chatIds.length)

/-- `chatExists(chatId)`. -/
def chatExists (s : LibState) (chatId : String) : Bool :=
  (getChat s chatId).isSome

/-- `isUserActive(emailOrLoginId)`: a direct key lookup. -/
def isUserActive (s : LibState) (emailOrLoginId : String) : Bool :=
  hasKey s.active_users emailOrLoginId

/-- `addToWaitingList({loginId, email, socket})`: builds the proxied record
(no store id, one socket, empty chat list) and assigns it at the derived key.
There is no presence check — an existing entry is silently overwritten. -/
def addToWaitingList (s : LibState) (loginId : String) (email : Option String)
    (socketId : String) : LibState :=
  let emailOrLoginId := email.getD loginId
  let newUser : User :=
    { id := none, email := email, loginId := loginId, socketIds := [socketId],
      currentChatId := none, chatIds := [] }
  { s with waiting_users := aset s.waiting_users emailOrLoginId newUser }

/-- `addActiveUser(user)`. -/
def addActiveUser (s : LibState) (user : User) : LibState :=
  { s with active_users := aset s.active_users user.emailOrLoginId user }

/-- `delActiveUser(user)`: cache eviction; the `ActiveUser.deleteOne` store
call has no cache effect and is not modelled. -/
def delActiveUser (s : LibState) (user : User) : LibState :=
  { s with active_users := aerase s.active_users user.emailOrLoginId }

/-- `delWaitingUser(id)`. -/
def delWaitingUser (s : LibState) (id : String) : LibState :=
  { s with waiting_users := aerase s.waiting_users id }

/-- `getWaitingUserLen()`. -/
def getWaitingUserLen (s : LibState) : Nat :=
  (akeys s.waiting_users).length

/-- One iteration of the `getRandomPairFromWaitingList` loop: `i` is this
iteration's `Math.floor(Math.random() * waitingUserIds.length)`. The drawn
user is pushed, deleted from the waiting map, and spliced out of the local
key list. An out-of-range index (possible only when the pool is too small)
pushes JS `undefined`, modelled as `none`, and deletes/splices nothing. -/
def pairDraw (st : List (Option User) × LibState × List String) (i : Nat) :
    List (Option User) × LibState × List String :=
  let (pairedUsers, s, waitingUserIds) := st
  match waitingUserIds.get? i with
  | some randomId =>
      (pairedUsers ++ [alookup s.waiting_users randomId],
       delWaitingUser s randomId,
       waitingUserIds.eraseIdx i)
  | none => (pairedUsers ++ [none], s, waitingUserIds)

/-- `getRandomPairFromWaitingList()` with the two random draws `i1`, `i2`
made explicit. -/
def getRandomPairFromWaitingList (s : LibState) (i1 i2 : Nat) :
    List (Option User) × LibState :=
  let st1 := pairDraw ([], s, akeys s.waiting_users) i1
  let st2 := pairDraw st1 i2
  (st2.1, st2.2.1)

/-- The per-user loop body of `createChat`: `ActiveUser.create` assigns the
fresh store id `p.2` to the passed user `p.1`, the chat id is recorded in
`currentChatId` and appended to `chatIds`, every socket joins the chat's
channel (transport side effect, not modelled), and the user is promoted via
`addActiveUser`. -/
def createChatUserStep (chatId : String) (acc : LibState × List User)
    (p : User × String) : LibState × List User :=
  let (s, done) := acc
  let u : User := { p.1 with
    id := some p.2
    currentChatId := some chatId
    chatIds := p.1.chatIds ++ [chatId] }
  (addActiveUser s u, done ++ [u])

/-- `createChat(users)`: `userInputs` pairs each passed user with the store id
`ActiveUser.create` assigns it; `chatId` is the fresh chat ObjectId. After the
per-user loop, the chat's store record is created and the cache entry is
inserted at `chatId`. Modelled from the spec: the chat record's
`optimizedVersion` (defined in the Chat model, outside src/) is the canonical
projection — id, creation timestamp and an empty message map for a fresh
chat. -/
def createChat (s : LibState) (chatId : String) (createdAt : String)
    (userInputs : List (User × String)) : Chat × LibState :=
  let (s1, users) := userInputs.foldl (createChatUserStep chatId) (s, [])
  let optimizedChat : Chat :=
    { id := chatId, userIds := users.map User.emailOrLoginId, messages := [],
      createdAt := createdAt }
  (optimizedChat, { s1 with chats := aset s1.chats chatId optimizedChat })

/-- `user.chatIds.forEach((id, i) => { if (id == chatId) user.chatIds.splice(i, 1) })`:
JS `forEach` reads the array live, so a splice shifts later elements down and
iteration continues at the next index over the shortened array; indices at or
beyond the current length are skipped. `fuel` is the length captured when the
iteration starts. -/
def spliceLoop : List String → String → Nat → Nat → List String
  | l, _, _, 0 => l
  | l, c, k, fuel + 1 =>
      if h : k < l.length then
        spliceLoop (if l.get ⟨k, h⟩ = c then l.eraseIdx k else l) c (k + 1) fuel
      else l

/-- The chat-id list of a `closeChat` member after the splice loop. -/
def chatIdsAfterSplice (chatIds : List String) (chatId : String) : List String :=
  spliceLoop chatIds chatId 0 chatIds.length

/-- The member loop body of `closeChat`. The repeated `Chat.deleteOne` is a
store call with no cache effect and is not modelled. The `getChatsCount`
re-lookup reflects the JS `getChatsCount(userId) == 0` test; a `none` there
(the JS TypeError case, impossible while the member is still cached) takes the
not-zero branch. -/
def closeChatMemberStep (chatId : String) (acc : List String × LibState)
    (userId : String) : List String × LibState :=
  let (inactiveList, s) := acc
  match getActiveUserEntry s userId with
  | none => (inactiveList, s)
  | some (key, user) =>
      let user1 := { user with chatIds := chatIdsAfterSplice user.chatIds chatId }
      let s1 := { s with active_users := aset s.active_users key user1 }
      match getChatsCount s1 userId with
      | some 0 =>
          let user2 := { user1 with currentChatId := none }
          let s2 := { s1 with active_users := aset s1.active_users key user2 }
          let s3 := delActiveUser s2 user2
          (if inactiveList.contains user2.emailOrLoginId then inactiveList
           else inactiveList ++ [user2.emailOrLoginId], s3)
      | _ => (inactiveList, s1)

/-- `closeChat(chatId)`: the leading `Chat.deleteOne` and the
`Message.deleteMany` are store calls with no cache effect and are not
modelled. Returns `none` (JS `null`) when the chat is not cached; otherwise
runs the member loop and finally deletes the chat's cache entry. -/
def closeChat (s : LibState) (chatId : String) : Option (List String) × LibState :=
  match getChat s chatId with
  | none => (none, s)
  | some chat =>
      let (inactiveList, s1) := chat.userIds.foldl (closeChatMemberStep chatId) ([], s)
      (some inactiveList, { s1 with chats := aerase s1.chats chatId })

/-- A store write performed by `addMessage`. -/
inductive StoreOp where
  | createMessage (text : String) (senderRef : Option String) (mtype : String)
      (createdAt : String)
  | pushMessageRef (chatId : String) (messageId : String)
  deriving Repr, DecidableEq

/-- `addMessage(chatId, {message, time, senderId, type})`: `msgId` is the
store id `Message.create` assigns; the trace lists the store writes performed.
The cached entry is built from the created record's projection with the
caller-supplied `senderId` spread on top. Modelled from the spec: a message
record's `optimizedVersion` (outside src/) projects id, text, timestamp and
type. -/
def addMessage (s : LibState) (chatId : String) (text : String) (time : String)
    (senderId : String) (mtype : String) (msgId : String) :
    Option Message × LibState × List StoreOp :=
  match getActiveUser s senderId with
  | none => (none, s, [])
  | some sender =>
      match alookup s.chats chatId with
      | none => (none, s, [])
      | some chat =>
          let optimizedMessage : Message :=
            { id := msgId, message := text, senderId := senderId, time := time,
              mtype := mtype }
          let chat1 := { chat with
            messages := aset chat.messages msgId optimizedMessage }
          (some optimizedMessage,
           { s with chats := aset s.chats chatId chat1 },
           [StoreOp.createMessage text sender.id mtype time,
            StoreOp.pushMessageRef chatId msgId])

/-- `editMessage(chatId, {id, message})`: `storeOk` says whether the store
`Message.updateOne` succeeds (`false` = it throws, landing in the catch before
the cache write). -/
def editMessage (s : LibState) (chatId : String) (id : String) (text : String)
    (storeOk : Bool) : Bool × LibState :=
  match alookup s.chats chatId with
  | none => (false, s)
  | some chat =>
      match alookup chat.messages id with
      | none => (false, s)
      | some m =>
          if storeOk then
            let chat1 := { chat with
              messages := aset chat.messages id { m with message := text } }
            (true, { s with chats := aset s.chats chatId chat1 })
          else (false, s)

/-! ## Bootstrap (`init`) over an abstract store snapshot -/

/-- A persisted user record as `init` sees it (after population). -/
structure StoreUser where
  id : String
  email : Option String
  loginId : String
  currentChat : Option String
  deriving Repr, DecidableEq

/-- The persisted record's derived key. -/
def StoreUser.emailOrLoginId (u : StoreUser) : String :=
  u.email.getD u.loginId

/-- A persisted message with its populated sender; `sender = none` is the
unresolvable-reference case (`message.sender === null`). -/
structure StoreMessage where
  id : String
  message : String
  sender : Option StoreUser
  time : String
  mtype : String
  deriving Repr, DecidableEq

/-- A persisted chat with populated members and messages. -/
structure StoreChat where
  id : String
  users : List StoreUser
  messages : List StoreMessage
  createdAt : String
  deriving Repr, DecidableEq

/-- The store snapshot `init` runs against. -/
structure Store where
  chats : List StoreChat
  activeUsers : List StoreUser
  deriving Repr, DecidableEq

/-- The message loop inside `init`'s chat loop: builds the local `messages`
object in order; a null sender hits `return`, abandoning the whole function
(`none`). -/
def buildMessages : AList Message → List StoreMessage → Option (AList Message)
  | acc, [] => some acc
  | acc, m :: rest =>
      match m.sender with
      | none => none
      | some sender =>
          buildMessages
            (aset acc m.id
              { id := m.id, message := m.message,
                senderId := sender.emailOrLoginId, time := m.time,
                mtype := m.mtype }) rest

/-- The chat loop of `init`. The boolean records whether the loop ran to
completion; `false` means a null sender triggered the `return` that exits the
whole function, leaving only the chats already inserted. -/
def initChatsLoop : LibState → List StoreChat → LibState × Bool
  | s, [] => (s, true)
  | s, chat :: rest =>
      match buildMessages [] chat.messages with
      | none => (s, false)
      | some messages =>
          let cachedChat : Chat :=
            { id := chat.id,
              userIds := chat.users.map StoreUser.emailOrLoginId,
              messages := messages, createdAt := chat.createdAt }
          initChatsLoop { s with chats := aset s.chats chat.id cachedChat } rest

/-- The per-user store query `Chat.find({users: {$in: [activeUser._id]}})`,
evaluated against the snapshot. -/
def storeChatIdsOf (store : Store) (userId : String) : List String :=
  (store.chats.filter (fun c => c.users.any (fun u => u.id == userId))).map
    (fun c => c.id)

/-- `init()`, run from the given cache state (empty at bootstrap). The active
user loop runs only if the chat loop completed. Modelled from the spec: an
active user's `optimizedVersion` (outside src/) is the canonical projection of
the persisted record, carrying no live socket connections. -/
def init (s : LibState) (store : Store) : LibState :=
  let (s1, completed) := initChatsLoop s store.chats
  if completed then
    store.activeUsers.foldl
      (fun s au =>
        let cachedUser : User :=
          { id := some au.id, email := au.email, loginId := au.loginId,
            socketIds := [], currentChatId := au.currentChat,
            chatIds := storeChatIdsOf store au.id }
        { s with active_users := aset s.active_users au.emailOrLoginId cachedUser })
      s1
  else s1

/-! ## The operations as a transition system (for the state invariant) -/

/-- One call into the core, with the nondeterministic inputs (random draws,
store-assigned ids) made explicit. -/
inductive Op where
  | opAddToWaitingList (loginId : String) (email : Option String) (socketId : String)
  | opPickPair (i1 i2 : Nat)
  | opCreateChat (chatId : String) (createdAt : String)
      (userInputs : List (User × String))
  | opCloseChat (chatId : String)
  | opDelActiveUser (user : User)
  | opDelWaitingUser (id : String)
  | opAddActiveUser (user : User)
  deriving Repr

/-- The state transition each operation performs (returned values dropped). -/
def step (s : LibState) : Op → LibState
  | .opAddToWaitingList loginId email socketId => addToWaitingList s loginId email socketId
  | .opPickPair i1 i2 => (getRandomPairFromWaitingList s i1 i2).2
  | .opCreateChat chatId createdAt userInputs => (createChat s chatId createdAt userInputs).2
  | .opCloseChat chatId => (closeChat s chatId).2
  | .opDelActiveUser u => delActiveUser s u
  | .opDelWaitingUser id => delWaitingUser s id
  | .opAddActiveUser u => addActiveUser s u

/-! ## Well-formedness and invariant predicates -/

/-- Every entry of a user map is keyed by its record's derived id and keys are
unique — what the JS maps guarantee by construction (`addToWaitingList` and
`addActiveUser` both key by `emailOrLoginId`). -/
def KeyedByDerivedId (l : AList User) : Prop :=
  (akeys l).Nodup ∧ ∀ p ∈ l, p.2.emailOrLoginId = p.1

/-- No record matching the search string `d` (by held socket id, email, or
login id) sits under a key other than `d`; the `getActiveUser` linear scan
then resolves `d` to exactly the entry keyed `d`. -/
def ScanClean (l : AList User) (d : String) : Prop :=
  ∀ p ∈ l, userMatches p.2 d = true → p.1 = d

/-- Whether `closeChat(chatId)` finds member `d`'s chat-id list empty after
the splice, measured on the active map `A` as it stood before the call. -/
def becomesEmpty (A : AList User) (chatId d : String) : Bool :=
  ((alookup A d).map
    (fun u => (chatIdsAfterSplice u.chatIds chatId).isEmpty)).getD false

/-- The waiting and active maps share no key. -/
def MapsDisjoint (s : LibState) : Prop :=
  ∀ k, hasKey s.waiting_users k = true → hasKey s.active_users k = false

/-- The calling discipline of the intended pairing flow: a user is only put on
the waiting list while not active, and only promoted (via `createChat` or a
bare `addActiveUser`) after leaving the waiting list. The source code itself
enforces none of these preconditions. -/
def opGuard (s : LibState) : Op → Prop
  | .opAddToWaitingList loginId email _ =>
      hasKey s.active_users (email.getD loginId) = false
  | .opCreateChat _ _ userInputs =>
      ∀ p ∈ userInputs, hasKey s.waiting_users p.1.emailOrLoginId = false
  | .opAddActiveUser u => hasKey s.waiting_users u.emailOrLoginId = false
  | _ => True

/-- The operations that insert into the active map (chat creation and the bare
`addActiveUser` it delegates to). -/
def opAddsActive : Op → Bool
  | .opCreateChat _ _ _ => true
  | .opAddActiveUser _ => true
  | _ => false

/-! ## Concrete sample data for witnesses and counterexamples -/

/-- The module state at load time: three empty maps. -/
def emptyState : LibState :=
  { waiting_users := [], active_users := [], chats := [] }

/-- A waiting user with an email (derived id `"a@x"`). -/
def sampleUserA : User :=
  { id := none, email := some "a@x", loginId := "la", socketIds := ["s1"],
    currentChatId := none, chatIds := [] }

/-- A waiting user without an email (derived id `"lb"`). -/
def sampleUserB : User :=
  { id := none, email := none, loginId := "lb", socketIds := ["s2"],
    currentChatId := none, chatIds := [] }

/-- Both sample users on the waiting list. -/
def waitingState : LibState :=
  addToWaitingList (addToWaitingList emptyState "la" (some "a@x") "s1") "lb" none "s2"

/-- The state after pairing the two sample users into chat `"chat1"`. -/
def chatState : LibState :=
  (createChat emptyState "chat1" "t0" [(sampleUserA, "id1"), (sampleUserB, "id2")]).2

/-- `sampleUserA` as `createChat` leaves it in the active map. -/
def activeUserA : User :=
  { id := some "id1", email := some "a@x", loginId := "la", socketIds := ["s1"],
    currentChatId := some "chat1", chatIds := ["chat1"] }

/-- `sampleUserB` as `createChat` leaves it in the active map. -/
def activeUserB : User :=
  { id := some "id2", email := none, loginId := "lb", socketIds := ["s2"],
    currentChatId := some "chat1", chatIds := ["chat1"] }

/-- The cache record of `"chat1"` right after creation. -/
def chatRecord : Chat :=
  { id := "chat1", userIds := ["a@x", "lb"], messages := [], createdAt := "t0" }

/-- `chatState` after one successful `addMessage`. -/
def msgState : LibState :=
  (addMessage chatState "chat1" "hello" "t1" "la" "message" "m1").2.1

/-- An intact persisted chat. -/
def storeChat1 : StoreChat :=
  { id := "c1", users := [], messages := [], createdAt := "t" }

/-- A persisted message whose sender reference cannot be resolved. -/
def storeMsgBad : StoreMessage :=
  { id := "m", message := "x", sender := none, time := "t", mtype := "message" }

/-- A persisted chat holding the unresolvable message. -/
def storeChat2 : StoreChat :=
  { id := "c2", users := [], messages := [storeMsgBad], createdAt := "t" }

/-- Another intact persisted chat, after the broken one. -/
def storeChat3 : StoreChat :=
  { id := "c3", users := [], messages := [], createdAt := "t" }

/-- A persisted active user. -/
def storeUserL : StoreUser :=
  { id := "u", email := none, loginId := "l", currentChat := none }

/-- A store snapshot whose second chat has a message with an unresolvable
sender; the other two chats and the active user are intact. -/
def sampleStore : Store :=
  { chats := [storeChat1, storeChat2, storeChat3], activeUsers := [storeUserL] }

section AListLemmas

variable {α : Type}

@[simp]
theorem alookup_nil (k : String) : alookup ([] : AList α) k = none := rfl

@[simp]
theorem alookup_cons (p : String × α) (l : AList α) (k : String) :
    alookup (p :: l) k = if p.1 = k then some p.2 else alookup l k := rfl

@[simp]
theorem hasKey_nil (k : String) : hasKey ([] : AList α) k = false := rfl

@[simp]
theorem hasKey_cons (p : String × α) (l : AList α) (k : String) :
    hasKey (p :: l) k = (p.1 == k || hasKey l k) := rfl

@[simp]
theorem aset_nil (k : String) (v : α) : aset ([] : AList α) k v = [(k, v)] := rfl

@[simp]
theorem aset_cons (p : String × α) (l : AList α) (k : String) (v : α) :
    aset (p :: l) k v = if p.1 = k then (k, v) :: l else p :: aset l k v := rfl

@[simp]
theorem aerase_nil (k : String) : aerase ([] : AList α) k = [] := rfl

@[simp]
theorem aerase_cons (p : String × α) (l : AList α) (k : String) :
    aerase (p :: l) k = if p.1 = k then aerase l k else p :: aerase l k := rfl

@[simp]
theorem akeys_nil : akeys ([] : AList α) = [] := rfl

@[simp]
theorem akeys_cons (p : String × α) (l : AList α) :
    akeys (p :: l) = p.1 :: akeys l := rfl

theorem hasKey_iff_mem_akeys (l : AList α) (k : String) :
    hasKey l k = true ↔ k ∈ akeys l := by
  induction l with
  | nil => simp [akeys]
  | cons p t ih =>
      simp only [hasKey_cons, akeys_cons, List.mem_cons, Bool.or_eq_true,
        beq_iff_eq, ih]
      exact or_congr_left eq_comm

theorem alookup_isSome_of_hasKey {l : AList α} {k : String} (h : hasKey l k = true) :
    (alookup l k).isSome = true := by
  induction l with
  | nil => simp at h
  | cons p t ih =>
      by_cases hpk : p.1 = k
      · simp [hpk]
      · simp only [hasKey_cons, Bool.or_eq_true, beq_iff_eq, hpk, false_or] at h
        simp [hpk, ih h]

theorem alookup_none_of_not_hasKey {l : AList α} {k : String} (h : hasKey l k = false) :
    alookup l k = none := by
  induction l with
  | nil => rfl
  | cons p t ih =>
      simp only [hasKey_cons, Bool.or_eq_false_iff, beq_eq_false_iff_ne, ne_eq] at h
      simp [h.1, ih h.2]

@[simp]
theorem alookup_aset_self (l : AList α) (k : String) (v : α) :
    alookup (aset l k v) k = some v := by
  induction l with
  | nil => simp
  | cons p t ih =>
      by_cases hpk : p.1 = k <;> simp [hpk, ih]

@[simp]
theorem alookup_aset_ne (l : AList α) (k k' : String) (v : α) (h : k' ≠ k) :
    alookup (aset l k v) k' = alookup l k' := by
  have h' : k ≠ k' := Ne.symm h
  induction l with
  | nil => simp [h']
  | cons p t ih =>
      by_cases hpk : p.1 = k
      · simp [hpk, h, h']
      · by_cases hpk' : p.1 = k' <;> simp [hpk, hpk', h, h', ih]

@[simp]
theorem alookup_aerase_self (l : AList α) (k : String) :
    alookup (aerase l k) k = none := by
  induction l with
  | nil => rfl
  | cons p t ih =>
      by_cases hpk : p.1 = k <;> simp [hpk, ih]

@[simp]
theorem alookup_aerase_ne (l : AList α) (k k' : String) (h : k' ≠ k) :
    alookup (aerase l k) k' = alookup l k' := by
  have h' : k ≠ k' := Ne.symm h
  induction l with
  | nil => rfl
  | cons p t ih =>
      by_cases hpk : p.1 = k
      · simp [hpk, h, h', ih]
      · by_cases hpk' : p.1 = k' <;> simp [hpk, hpk', h, h', ih]

@[simp]
theorem hasKey_aset_self (l : AList α) (k : String) (v : α) :
    hasKey (aset l k v) k = true := by
  induction l with
  | nil => simp
  | cons p t ih =>
      by_cases hpk : p.1 = k <;> simp [hpk, ih]

@[simp]
theorem hasKey_aset_ne (l : AList α) (k k' : String) (v : α) (h : k' ≠ k) :
    hasKey (aset l k v) k' = hasKey l k' := by
  have h' : k ≠ k' := Ne.symm h
  induction l with
  | nil => simp [h']
  | cons p t ih =>
      by_cases hpk : p.1 = k
      · simp [hpk, h, h']
      · by_cases hpk' : p.1 = k' <;> simp [hpk, hpk', h, h', ih]

@[simp]
theorem hasKey_aerase_self (l : AList α) (k : String) :
    hasKey (aerase l k) k = false := by
  induction l with
  | nil => rfl
  | cons p t ih =>
      by_cases hpk : p.1 = k <;> simp [hpk, ih]

@[simp]
theorem hasKey_aerase_ne (l : AList α) (k k' : String) (h : k' ≠ k) :
    hasKey (aerase l k) k' = hasKey l k' := by
  have h' : k ≠ k' := Ne.symm h
  induction l with
  | nil => rfl
  | cons p t ih =>
      by_cases hpk : p.1 = k
      · simp [hpk, h, h', ih]
      · by_cases hpk' : p.1 = k' <;> simp [hpk, hpk', h, h', ih]

theorem aerase_eq_self_of_not_hasKey {l : AList α} {k : String}
    (h : hasKey l k = false) : aerase l k = l := by
  induction l with
  | nil => rfl
  | cons p t ih =>
      simp only [hasKey_cons, Bool.or_eq_false_iff, beq_eq_false_iff_ne, ne_eq] at h
      simp [h.1, ih h.2]

theorem length_aerase_of_hasKey {l : AList α} {k : String}
    (hnd : (akeys l).Nodup) (h : hasKey l k = true) :
    (aerase l k).length + 1 = l.length := by
  induction l with
  | nil => simp at h
  | cons p t ih =>
      simp only [akeys, List.map_cons, List.nodup_cons] at hnd
      by_cases hpk : p.1 = k
      · have hk : hasKey t k = false := by
          rw [← Bool.not_eq_true]
          intro hc
          exact hnd.1 (hpk ▸ (hasKey_iff_mem_akeys t k).mp hc)
        simp [hpk, aerase_eq_self_of_not_hasKey hk]
      · simp only [hasKey_cons, Bool.or_eq_true, beq_iff_eq, hpk, false_or] at h
        have := ih hnd.2 h
        simp only [aerase_cons, if_neg hpk, List.length_cons]
        omega

theorem akeys_aset_nodup {l : AList α} (k : String) (v : α)
    (hnd : (akeys l).Nodup) : (akeys (aset l k v)).Nodup := by
  induction l with
  | nil => simp
  | cons p t ih =>
      simp only [akeys_cons, List.nodup_cons] at hnd
      by_cases hpk : p.1 = k
      · simp only [aset_cons, if_pos hpk, akeys_cons, List.nodup_cons]
        exact ⟨hpk ▸ hnd.1, hnd.2⟩
      · simp only [aset_cons, if_neg hpk, akeys_cons, List.nodup_cons]
        refine ⟨?_, ih hnd.2⟩
        intro hc
        rcases (hasKey_iff_mem_akeys _ _).mpr hc with h
        by_cases hk : k = p.1
        · exact hpk hk.symm
        · rw [hasKey_aset_ne t k p.1 v (Ne.symm hk)] at h
          exact hnd.1 ((hasKey_iff_mem_akeys t p.1).mp h)

theorem akeys_aerase_nodup {l : AList α} (k : String)
    (hnd : (akeys l).Nodup) : (akeys (aerase l k)).Nodup := by
  induction l with
  | nil => simp
  | cons p t ih =>
      simp only [akeys_cons, List.nodup_cons] at hnd
      by_cases hpk : p.1 = k
      · simpa [hpk] using ih hnd.2
      · simp only [aerase_cons, if_neg hpk, akeys_cons, List.nodup_cons]
        refine ⟨?_, ih hnd.2⟩
        intro hc
        by_cases hk : p.1 = k
        · exact hpk hk
        · have := (hasKey_iff_mem_akeys _ _).mpr hc
          rw [hasKey_aerase_ne t k p.1 hk] at this
          exact hnd.1 ((hasKey_iff_mem_akeys t p.1).mp this)

theorem length_aset_of_hasKey {l : AList α} {k : String} (v : α)
    (h : hasKey l k = true) : (aset l k v).length = l.length := by
  induction l with
  | nil => simp at h
  | cons p t ih =>
      by_cases hpk : p.1 = k
      · simp [hpk]
      · simp only [hasKey_cons, Bool.or_eq_true, beq_iff_eq, hpk, false_or] at h
        simp [hpk, ih h]

theorem length_aset_of_not_hasKey {l : AList α} {k : String} (v : α)
    (h : hasKey l k = false) : (aset l k v).length = l.length + 1 := by
  induction l with
  | nil => simp
  | cons p t ih =>
      simp only [hasKey_cons, Bool.or_eq_false_iff, beq_eq_false_iff_ne, ne_eq] at h
      simp [h.1, ih h.2]

end AListLemmas

section HelperLemmas

variable {α : Type}

theorem hasKey_eq_isSome (l : AList α) (k : String) :
    hasKey l k = (alookup l k).isSome := by
  cases h : hasKey l k
  · simp [alookup_none_of_not_hasKey h]
  · simp [alookup_isSome_of_hasKey h]

theorem alookup_mem {l : AList α} {k : String} {v : α}
    (h : alookup l k = some v) : (k, v) ∈ l := by
  induction l with
  | nil => simp at h
  | cons p t ih =>
      by_cases hpk : p.1 = k
      · simp only [alookup_cons, if_pos hpk] at h
        obtain ⟨a, b⟩ := p
        simp_all
      · simp only [alookup_cons, if_neg hpk] at h
        exact List.mem_cons_of_mem _ (ih h)

theorem mem_aset {l : AList α} {k : String} {v : α} {p : String × α}
    (h : p ∈ aset l k v) : p ∈ l ∨ p = (k, v) := by
  induction l with
  | nil =>
      simp only [aset_nil, List.mem_singleton] at h
      exact Or.inr h
  | cons q t ih =>
      by_cases hqk : q.1 = k
      · simp only [aset_cons, if_pos hqk, List.mem_cons] at h
        rcases h with h | h
        · exact Or.inr h
        · exact Or.inl (List.mem_cons_of_mem _ h)
      · simp only [aset_cons, if_neg hqk, List.mem_cons] at h
        rcases h with h | h
        · exact Or.inl (h ▸ List.mem_cons_self _ _)
        · rcases ih h with h' | h'
          · exact Or.inl (List.mem_cons_of_mem _ h')
          · exact Or.inr h'

theorem mem_aerase {l : AList α} {k : String} {p : String × α}
    (h : p ∈ aerase l k) : p ∈ l := by
  induction l with
  | nil => simp at h
  | cons q t ih =>
      by_cases hqk : q.1 = k
      · simp only [aerase_cons, if_pos hqk] at h
        exact List.mem_cons_of_mem _ (ih h)
      · simp only [aerase_cons, if_neg hqk, List.mem_cons] at h
        rcases h with h | h
        · exact h ▸ List.mem_cons_self _ _
        · exact List.mem_cons_of_mem _ (ih h)

theorem hasKey_of_hasKey_aerase {l : AList α} {k k' : String}
    (h : hasKey (aerase l k') k = true) : hasKey l k = true := by
  by_cases hkk : k = k'
  · subst hkk
    simp at h
  · rwa [hasKey_aerase_ne l k' k hkk] at h

theorem hasKey_of_hasKey_aset {l : AList α} {k k' : String} {v : α}
    (h : hasKey (aset l k' v) k = true) : hasKey l k = true ∨ k = k' := by
  by_cases hkk : k = k'
  · exact Or.inr hkk
  · rw [hasKey_aset_ne l k' k v hkk] at h
    exact Or.inl h

theorem akeys_length (l : AList α) : (akeys l).length = l.length :=
  List.length_map _ _

/-- The scan test matches a user on its own derived id. -/
theorem userMatches_self (u : User) : userMatches u u.emailOrLoginId = true := by
  cases h : u.email <;> simp [userMatches, User.emailOrLoginId, h]

/-- So does the derived id. -/
theorem emailOrLoginId_update (u : User) (i : Option String) (c : Option String)
    (x : List String) :
    User.emailOrLoginId { u with id := i, currentChatId := c, chatIds := x } =
      u.emailOrLoginId := rfl

/-- Under well-formedness, the `getActiveUser` linear scan by a derived id `d`
finds exactly the entry keyed `d`. -/
theorem find_active_keyed (l : AList User) (d : String)
    (hwf : ∀ p ∈ l, p.2.emailOrLoginId = p.1)
    (hclean : ScanClean l d) :
    l.find? (fun p => userMatches p.2 d) = (alookup l d).map (fun u => (d, u)) := by
  induction l with
  | nil => rfl
  | cons p t ih =>
      obtain ⟨a, u⟩ := p
      by_cases hm : userMatches u d = true
      · have ha : a = d := hclean (a, u) (List.mem_cons_self _ _) hm
        subst ha
        simp [List.find?, hm]
      · have ha : a ≠ d := by
          intro he
          apply hm
          have h1 : u.emailOrLoginId = a := hwf (a, u) (List.mem_cons_self _ _)
          rw [← he, ← h1]
          exact userMatches_self u
        simp only [Bool.not_eq_true] at hm
        simp [List.find?, hm, ha,
          ih (fun q hq => hwf q (List.mem_cons_of_mem _ hq))
             (fun q hq hmq => hclean q (List.mem_cons_of_mem _ hq) hmq)]

end HelperLemmas

/-! ## C1: `getRandomPairFromWaitingList` on a pool of size at least two -/

/-- C1: for every well-formed waiting map of size at least 2 and any in-range
random draws, `getRandomPairFromWaitingList` returns two distinct users, both
are removed from the waiting map, and the waiting map's size decreases by
exactly 2 (the active and chat maps are untouched). -/
theorem getRandomPairFromWaitingList_spec (s : LibState) (i1 i2 : Nat)
    (hwf : KeyedByDerivedId s.waiting_users)
    (_hsize : 2 ≤ getWaitingUserLen s)
    (hi1 : i1 < getWaitingUserLen s)
    (hi2 : i2 < getWaitingUserLen s - 1) :
    ∃ u1 u2,
      (getRandomPairFromWaitingList s i1 i2).1 = [some u1, some u2] ∧
      alookup s.waiting_users u1.emailOrLoginId = some u1 ∧
      alookup s.waiting_users u2.emailOrLoginId = some u2 ∧
      u1.emailOrLoginId ≠ u2.emailOrLoginId ∧
      u1 ≠ u2 ∧
      hasKey (getRandomPairFromWaitingList s i1 i2).2.waiting_users
        u1.emailOrLoginId = false ∧
      hasKey (getRandomPairFromWaitingList s i1 i2).2.waiting_users
        u2.emailOrLoginId = false ∧
      getWaitingUserLen (getRandomPairFromWaitingList s i1 i2).2 + 2 =
        getWaitingUserLen s ∧
      (getRandomPairFromWaitingList s i1 i2).2.active_users = s.active_users ∧
      (getRandomPairFromWaitingList s i1 i2).2.chats = s.chats := by
  obtain ⟨hnd, hkeyed⟩ := hwf
  have hi1' : i1 < (akeys s.waiting_users).length := hi1
  have hk1get : (akeys s.waiting_users)[i1]? = some (akeys s.waiting_users)[i1] :=
    List.getElem?_eq_getElem hi1'
  have hk1mem : (akeys s.waiting_users)[i1] ∈ akeys s.waiting_users :=
    List.getElem_mem hi1'
  have hk1has : hasKey s.waiting_users (akeys s.waiting_users)[i1] = true :=
    (hasKey_iff_mem_akeys _ _).mpr hk1mem
  obtain ⟨u1, hu1⟩ := Option.isSome_iff_exists.mp (alookup_isSome_of_hasKey hk1has)
  have hlen2 : ((akeys s.waiting_users).eraseIdx i1).length =
      (akeys s.waiting_users).length - 1 := by
    rw [List.length_eraseIdx]
    simp [hi1']
  have hi2' : i2 < ((akeys s.waiting_users).eraseIdx i1).length := by
    have : i2 < (akeys s.waiting_users).length - 1 := hi2
    omega
  have hk2get : ((akeys s.waiting_users).eraseIdx i1)[i2]? =
      some ((akeys s.waiting_users).eraseIdx i1)[i2] :=
    List.getElem?_eq_getElem hi2'
  have hk2memE : ((akeys s.waiting_users).eraseIdx i1)[i2] ∈
      (akeys s.waiting_users).eraseIdx i1 := List.getElem_mem hi2'
  obtain ⟨j, hj, hjne, hjeq⟩ := List.mem_eraseIdx_iff_getElem.mp hk2memE
  have hk2mem : ((akeys s.waiting_users).eraseIdx i1)[i2] ∈ akeys s.waiting_users :=
    hjeq ▸ List.getElem_mem hj
  have hne : ((akeys s.waiting_users).eraseIdx i1)[i2] ≠ (akeys s.waiting_users)[i1] := by
    intro he
    rw [← hjeq] at he
    exact hjne (hnd.getElem_inj_iff.mp he)
  have hk2has : hasKey s.waiting_users ((akeys s.waiting_users).eraseIdx i1)[i2] = true :=
    (hasKey_iff_mem_akeys _ _).mpr hk2mem
  obtain ⟨u2, hu2⟩ := Option.isSome_iff_exists.mp (alookup_isSome_of_hasKey hk2has)
  have hu2e : alookup (aerase s.waiting_users (akeys s.waiting_users)[i1])
      ((akeys s.waiting_users).eraseIdx i1)[i2] = some u2 := by
    rw [alookup_aerase_ne _ _ _ hne]
    exact hu2
  have he1 : u1.emailOrLoginId = (akeys s.waiting_users)[i1] :=
    hkeyed _ (alookup_mem hu1)
  have he2 : u2.emailOrLoginId = ((akeys s.waiting_users).eraseIdx i1)[i2] :=
    hkeyed _ (alookup_mem hu2)
  have hres1 : (getRandomPairFromWaitingList s i1 i2).1 = [some u1, some u2] := by
    simp [getRandomPairFromWaitingList, pairDraw, delWaitingUser, hk1get, hk2get,
      hu1, hu2e]
  have hres2 : (getRandomPairFromWaitingList s i1 i2).2.waiting_users =
      aerase (aerase s.waiting_users (akeys s.waiting_users)[i1])
        ((akeys s.waiting_users).eraseIdx i1)[i2] := by
    simp [getRandomPairFromWaitingList, pairDraw, delWaitingUser, hk1get, hk2get,
      hu1, hu2e]
  have hres3 : (getRandomPairFromWaitingList s i1 i2).2.active_users =
      s.active_users := by
    simp [getRandomPairFromWaitingList, pairDraw, delWaitingUser, hk1get, hk2get,
      hu1, hu2e]
  have hres4 : (getRandomPairFromWaitingList s i1 i2).2.chats = s.chats := by
    simp [getRandomPairFromWaitingList, pairDraw, delWaitingUser, hk1get, hk2get,
      hu1, hu2e]
  have hederiv : u1.emailOrLoginId ≠ u2.emailOrLoginId := by
    rw [he1, he2]
    exact Ne.symm hne
  refine ⟨u1, u2, hres1, ?_, ?_, hederiv, ?_, ?_, ?_, ?_, hres3, hres4⟩
  · rw [he1]
    exact hu1
  · rw [he2]
    exact hu2
  · intro hc
    exact hederiv (congrArg User.emailOrLoginId hc)
  · rw [hres2, he1]
    rw [hasKey_aerase_ne _ _ _ (by rw [← he1, ← he2]; exact hederiv)]
    exact hasKey_aerase_self _ _
  · rw [hres2, he2]
    exact hasKey_aerase_self _ _
  · simp only [getWaitingUserLen, akeys_length, hres2]
    have hnd1 : (akeys (aerase s.waiting_users (akeys s.waiting_users)[i1])).Nodup :=
      akeys_aerase_nodup _ hnd
    have hhk : hasKey (aerase s.waiting_users (akeys s.waiting_users)[i1])
        ((akeys s.waiting_users).eraseIdx i1)[i2] = true := by
      rw [hasKey_aerase_ne _ _ _ hne]
      exact hk2has
    have l1 := length_aerase_of_hasKey hnd1 hhk
    have l2 := length_aerase_of_hasKey hnd hk1has
    have := akeys_length s.waiting_users
    omega

/-- Witness for C1: drawing indices 0 and 0 from the two-user sample waiting
state removes both users and empties the pool. -/
theorem getRandomPairFromWaitingList_spec_witness :
    ∃ u1 u2,
      (getRandomPairFromWaitingList waitingState 0 0).1 = [some u1, some u2] ∧
      u1 ≠ u2 ∧
      getWaitingUserLen (getRandomPairFromWaitingList waitingState 0 0).2 + 2 =
        getWaitingUserLen waitingState := by
  obtain ⟨u1, u2, h1, h2, h3, h4, h5, h6, h7, h8, h9, h10⟩ :=
    getRandomPairFromWaitingList_spec waitingState 0 0 ⟨by decide, by decide⟩
      (by decide) (by decide) (by decide)
  exact ⟨u1, u2, h1, h5, h8⟩

/-! ## C2: `createChat` on a pair of waiting users -/

/-- C2: for every pair of users with empty chat lists and distinct derived
ids (as any two users drawn from the waiting pool are), after `createChat`
both are present in the active map, each with a one-element `chatIds` list
holding the new chat id, both `currentChatId` fields hold the new chat id,
and the chats map gains an entry whose member list is exactly the two derived
ids; the created chat projection is returned. -/
theorem createChat_pair_spec (s : LibState) (chatId createdAt id1 id2 : String)
    (u1 u2 : User)
    (hc1 : u1.chatIds = [])
    (hc2 : u2.chatIds = [])
    (hne : u1.emailOrLoginId ≠ u2.emailOrLoginId) :
    ∃ v1 v2 c,
      alookup (createChat s chatId createdAt [(u1, id1), (u2, id2)]).2.active_users
        u1.emailOrLoginId = some v1 ∧
      alookup (createChat s chatId createdAt [(u1, id1), (u2, id2)]).2.active_users
        u2.emailOrLoginId = some v2 ∧
      v1.chatIds = [chatId] ∧ v2.chatIds = [chatId] ∧
      v1.chatIds.length = 1 ∧ v2.chatIds.length = 1 ∧
      v1.currentChatId = some chatId ∧ v2.currentChatId = some chatId ∧
      v1.emailOrLoginId = u1.emailOrLoginId ∧ v2.emailOrLoginId = u2.emailOrLoginId ∧
      alookup (createChat s chatId createdAt [(u1, id1), (u2, id2)]).2.chats chatId =
        some c ∧
      c.userIds = [u1.emailOrLoginId, u2.emailOrLoginId] ∧
      (createChat s chatId createdAt [(u1, id1), (u2, id2)]).1 = c := by
  refine ⟨{ u1 with
            id := some id1
            currentChatId := some chatId
            chatIds := u1.chatIds ++ [chatId] },
          { u2 with
            id := some id2
            currentChatId := some chatId
            chatIds := u2.chatIds ++ [chatId] },
          (createChat s chatId createdAt [(u1, id1), (u2, id2)]).1,
          ?_, ?_, ?_, ?_, ?_, ?_, ?_, ?_, ?_, ?_, ?_, ?_, rfl⟩
  · simp [createChat, createChatUserStep, addActiveUser, emailOrLoginId_update, hne]
  · simp [createChat, createChatUserStep, addActiveUser, emailOrLoginId_update]
  · simp [hc1]
  · simp [hc2]
  · simp [hc1]
  · simp [hc2]
  all_goals first
    | exact ⟨rfl, rfl⟩
    | rfl
    | simp [createChat, createChatUserStep, addActiveUser]

/-- Witness for C2: pairing the two sample users into `"chat1"`. -/
theorem createChat_pair_spec_witness :
    ∃ v1 v2 c,
      alookup chatState.active_users "a@x" = some v1 ∧
      alookup chatState.active_users "lb" = some v2 ∧
      v1.chatIds = ["chat1"] ∧ v2.chatIds = ["chat1"] ∧
      v1.currentChatId = some "chat1" ∧ v2.currentChatId = some "chat1" ∧
      alookup chatState.chats "chat1" = some c ∧
      c.userIds = ["a@x", "lb"] := by
  obtain ⟨v1, v2, c, h1, h2, h3, h4, h5, h6, h7, h8, h9, h10, h11, h12, h13⟩ :=
    createChat_pair_spec emptyState "chat1" "t0" "id1" "id2" sampleUserA sampleUserB
      rfl rfl (by decide)
  exact ⟨v1, v2, c, h1, h2, h3, h4, h7, h8, h11, h12⟩

/-! ## C3: `closeChat` -/

theorem emailOrLoginId_mk (i e : Option String) (l : String) (so : List String)
    (c : Option String) (x : List String) :
    User.emailOrLoginId ⟨i, e, l, so, c, x⟩ = e.getD l := rfl

theorem closeChatMembersFold_spec (chatId : String) (A0 : AList User)
    (ms : List String) :
    ∀ (inactive0 : List String) (st : LibState),
    ms.Nodup →
    (∀ d ∈ ms, d ∉ inactive0) →
    (∀ d ∈ ms, alookup st.active_users d = alookup A0 d) →
    (∀ d ∈ ms, hasKey st.active_users d = true) →
    (∀ p ∈ st.active_users, p.2.emailOrLoginId = p.1) →
    (akeys st.active_users).Nodup →
    (∀ d ∈ ms, ScanClean st.active_users d) →
    (ms.foldl (closeChatMemberStep chatId) (inactive0, st)).1 =
        inactive0 ++ ms.filter (becomesEmpty A0 chatId) ∧
    (∀ k, k ∉ ms →
      alookup (ms.foldl (closeChatMemberStep chatId) (inactive0, st)).2.active_users
        k = alookup st.active_users k) ∧
    (∀ d ∈ ms, becomesEmpty A0 chatId d = true →
      alookup (ms.foldl (closeChatMemberStep chatId) (inactive0, st)).2.active_users
        d = none) ∧
    (∀ d ∈ ms, ∀ u, alookup A0 d = some u → becomesEmpty A0 chatId d = false →
      alookup (ms.foldl (closeChatMemberStep chatId) (inactive0, st)).2.active_users
        d = some { u with chatIds := chatIdsAfterSplice u.chatIds chatId }) ∧
    (ms.foldl (closeChatMemberStep chatId) (inactive0, st)).2.chats = st.chats ∧
    (ms.foldl (closeChatMemberStep chatId) (inactive0, st)).2.waiting_users =
      st.waiting_users := by
  induction ms with
  | nil =>
      intro inactive0 st _ _ _ _ _ _ _
      simp
  | cons d rest ih =>
      intro inactive0 st hnd hni hsame hmem hwf hkeys hclean
      rw [List.nodup_cons] at hnd
      have hdmem : d ∈ d :: rest := List.mem_cons_self _ _
      obtain ⟨u, hu⟩ := Option.isSome_iff_exists.mp
        (alookup_isSome_of_hasKey (hmem d hdmem))
      have huA0 : alookup A0 d = some u := by
        rw [← hsame d hdmem]
        exact hu
      have hdu : u.emailOrLoginId = d := hwf (d, u) (alookup_mem hu)
      have hfind : getActiveUserEntry st d = some (d, u) := by
        show st.active_users.find? (fun p => userMatches p.2 d) = some (d, u)
        rw [find_active_keyed st.active_users d hwf (hclean d hdmem), hu]
        rfl
      have hwf1 : ∀ p ∈ aset st.active_users d { u with chatIds := chatIdsAfterSplice u.chatIds chatId }, p.2.emailOrLoginId = p.1 := by
        intro p hp
        rcases mem_aset hp with hp' | hp'
        · exact hwf p hp'
        · rw [hp']
          exact hdu
      have hclean1 : ScanClean (aset st.active_users d { u with chatIds := chatIdsAfterSplice u.chatIds chatId }) d := by
        intro p hp hm
        rcases mem_aset hp with hp' | hp'
        · exact hclean d hdmem p hp' hm
        · rw [hp']
      have hcount : getChatsCount { st with active_users := aset st.active_users d { u with chatIds := chatIdsAfterSplice u.chatIds chatId } } d = some (chatIdsAfterSplice u.chatIds chatId).length := by
        show (((aset st.active_users d { u with chatIds := chatIdsAfterSplice u.chatIds chatId }).find? (fun p => userMatches p.2 d)).map Prod.snd).map (fun v => v.chatIds.length) = _
        rw [find_active_keyed _ d hwf1 hclean1, alookup_aset_self]
        rfl
      have hco : inactive0.contains d = false := by
        have := hni d hdmem
        simp [List.contains, List.elem_eq_mem, this]
      have hdu' : u.email.getD u.loginId = d := hdu
      have hnotin : d ∉ inactive0 := hni d hdmem
      by_cases hempty : chatIdsAfterSplice u.chatIds chatId = []
      · -- the member is deactivated
        have hbe : becomesEmpty A0 chatId d = true := by
          simp [becomesEmpty, huA0, hempty]
        rw [hempty] at hcount
        have hstep : closeChatMemberStep chatId (inactive0, st) d =
            (inactive0 ++ [d], { st with active_users := aerase (aset (aset st.active_users d { u with chatIds := chatIdsAfterSplice u.chatIds chatId }) d { u with chatIds := chatIdsAfterSplice u.chatIds chatId, currentChatId := none }) d }) := by
          simp only [closeChatMemberStep, hfind, hcount]
          simp [delActiveUser, emailOrLoginId_mk, hdu', hnotin, hempty, hcount]
        rw [List.foldl_cons, hstep]
        have hereE : ∀ k, k ≠ d → alookup (aerase (aset (aset st.active_users d { u with chatIds := chatIdsAfterSplice u.chatIds chatId }) d { u with chatIds := chatIdsAfterSplice u.chatIds chatId, currentChatId := none }) d) k = alookup st.active_users k := by
          intro k hk
          rw [alookup_aerase_ne _ _ _ hk, alookup_aset_ne _ _ _ _ hk,
            alookup_aset_ne _ _ _ _ hk]
        have hkeyE : ∀ k, k ≠ d → hasKey (aerase (aset (aset st.active_users d { u with chatIds := chatIdsAfterSplice u.chatIds chatId }) d { u with chatIds := chatIdsAfterSplice u.chatIds chatId, currentChatId := none }) d) k = hasKey st.active_users k := by
          intro k hk
          rw [hasKey_aerase_ne _ _ _ hk, hasKey_aset_ne _ _ _ _ hk,
            hasKey_aset_ne _ _ _ _ hk]
        have hmemD : ∀ p ∈ aerase (aset (aset st.active_users d { u with chatIds := chatIdsAfterSplice u.chatIds chatId }) d { u with chatIds := chatIdsAfterSplice u.chatIds chatId, currentChatId := none }) d, p ∈ st.active_users ∨ p = (d, { u with chatIds := chatIdsAfterSplice u.chatIds chatId }) ∨ p = (d, { u with chatIds := chatIdsAfterSplice u.chatIds chatId, currentChatId := none }) := by
          intro p hp
          rcases mem_aset (mem_aerase hp) with hp' | hp'
          · rcases mem_aset hp' with h2 | h2
            · exact Or.inl h2
            · exact Or.inr (Or.inl h2)
          · exact Or.inr (Or.inr hp')
        obtain ⟨G1, G2, G3, G4, G5, G6⟩ :=
          ih (inactive0 ++ [d]) { st with active_users := aerase (aset (aset st.active_users d { u with chatIds := chatIdsAfterSplice u.chatIds chatId }) d { u with chatIds := chatIdsAfterSplice u.chatIds chatId, currentChatId := none }) d }
            hnd.2
            (by
              intro q hq
              simp only [List.mem_append, List.mem_singleton]
              push_neg
              exact ⟨hni q (List.mem_cons_of_mem _ hq),
                fun he => absurd (he ▸ hq) hnd.1⟩)
            (by
              intro q hq
              have hqd : q ≠ d := fun he => absurd (he ▸ hq) hnd.1
              show alookup _ q = _
              rw [hereE q hqd]
              exact hsame q (List.mem_cons_of_mem _ hq))
            (by
              intro q hq
              have hqd : q ≠ d := fun he => absurd (he ▸ hq) hnd.1
              show hasKey _ q = true
              rw [hkeyE q hqd]
              exact hmem q (List.mem_cons_of_mem _ hq))
            (by
              intro p hp
              rcases hmemD p hp with h2 | h2 | h2
              · exact hwf p h2
              · rw [h2]
                exact hdu'
              · rw [h2]
                exact hdu')
            (akeys_aerase_nodup _ (akeys_aset_nodup _ _ (akeys_aset_nodup _ _ hkeys)))
            (by
              intro q hq p hp hm
              rcases hmemD p hp with h2 | h2 | h2
              · exact hclean q (List.mem_cons_of_mem _ hq) p h2 hm
              · rw [h2] at hm ⊢
                have hmu : userMatches u q = true := hm
                exact hclean q (List.mem_cons_of_mem _ hq) (d, u) (alookup_mem hu) hmu
              · rw [h2] at hm ⊢
                have hmu : userMatches u q = true := hm
                exact hclean q (List.mem_cons_of_mem _ hq) (d, u) (alookup_mem hu) hmu)
        refine ⟨?_, ?_, ?_, ?_, ?_, ?_⟩
        · rw [G1, List.filter_cons]
          simp [hbe, List.append_assoc]
        · intro k hk
          have hkd : k ≠ d := fun he => hk (he ▸ List.mem_cons_self _ _)
          have hkr : k ∉ rest := fun hc => hk (List.mem_cons_of_mem _ hc)
          rw [G2 k hkr]
          exact hereE k hkd
        · intro q hq hbq
          rcases List.mem_cons.mp hq with rfl | hq'
          · rw [G2 q hnd.1]
            exact alookup_aerase_self _ _
          · exact G3 q hq' hbq
        · intro q hq u' hu' hbq
          rcases List.mem_cons.mp hq with rfl | hq'
          · rw [hbe] at hbq
            exact absurd hbq (by simp)
          · exact G4 q hq' u' hu' hbq
        · rw [G5]
        · rw [G6]
      · -- the member keeps another chat
        have hbe : becomesEmpty A0 chatId d = false := by
          cases hsp : chatIdsAfterSplice u.chatIds chatId with
          | nil => exact absurd hsp hempty
          | cons a t => simp [becomesEmpty, huA0, hsp]
        obtain ⟨a, t, hsp⟩ : ∃ a t, chatIdsAfterSplice u.chatIds chatId = a :: t := by
          cases hsp : chatIdsAfterSplice u.chatIds chatId with
          | nil => exact absurd hsp hempty
          | cons a t => exact ⟨a, t, rfl⟩
        rw [hsp] at hcount
        have hstep : closeChatMemberStep chatId (inactive0, st) d =
            (inactive0, { st with active_users := aset st.active_users d { u with chatIds := chatIdsAfterSplice u.chatIds chatId } }) := by
          simp only [closeChatMemberStep, hfind, hcount]
          simp [hsp, hcount]
        rw [List.foldl_cons, hstep]
        have hereN : ∀ k, k ≠ d → alookup (aset st.active_users d { u with chatIds := chatIdsAfterSplice u.chatIds chatId }) k = alookup st.active_users k := by
          intro k hk
          rw [alookup_aset_ne _ _ _ _ hk]
        have hmemN : ∀ p ∈ aset st.active_users d { u with chatIds := chatIdsAfterSplice u.chatIds chatId }, p ∈ st.active_users ∨ p = (d, { u with chatIds := chatIdsAfterSplice u.chatIds chatId }) := fun p hp => mem_aset hp
        obtain ⟨G1, G2, G3, G4, G5, G6⟩ :=
          ih inactive0 { st with active_users := aset st.active_users d { u with chatIds := chatIdsAfterSplice u.chatIds chatId } }
            hnd.2
            (fun q hq => hni q (List.mem_cons_of_mem _ hq))
            (by
              intro q hq
              have hqd : q ≠ d := fun he => absurd (he ▸ hq) hnd.1
              show alookup _ q = _
              rw [hereN q hqd]
              exact hsame q (List.mem_cons_of_mem _ hq))
            (by
              intro q hq
              have hqd : q ≠ d := fun he => absurd (he ▸ hq) hnd.1
              show hasKey _ q = true
              rw [hasKey_aset_ne _ _ _ _ hqd]
              exact hmem q (List.mem_cons_of_mem _ hq))
            (by
              intro p hp
              rcases hmemN p hp with h2 | h2
              · exact hwf p h2
              · rw [h2]
                exact hdu')
            (akeys_aset_nodup _ _ hkeys)
            (by
              intro q hq p hp hm
              rcases hmemN p hp with h2 | h2
              · exact hclean q (List.mem_cons_of_mem _ hq) p h2 hm
              · rw [h2] at hm ⊢
                have hmu : userMatches u q = true := hm
                exact hclean q (List.mem_cons_of_mem _ hq) (d, u) (alookup_mem hu) hmu)
        refine ⟨?_, ?_, ?_, ?_, ?_, ?_⟩
        · rw [G1, List.filter_cons]
          simp [hbe]
        · intro k hk
          have hkd : k ≠ d := fun he => hk (he ▸ List.mem_cons_self _ _)
          have hkr : k ∉ rest := fun hc => hk (List.mem_cons_of_mem _ hc)
          rw [G2 k hkr]
          exact hereN k hkd
        · intro q hq hbq
          rcases List.mem_cons.mp hq with rfl | hq'
          · rw [hbe] at hbq
            exact absurd hbq (by simp)
          · exact G3 q hq' hbq
        · intro q hq u' hu' hbq
          rcases List.mem_cons.mp hq with rfl | hq'
          · rw [huA0] at hu'
            have hu'' : u' = u := by
              injection hu' with h
              exact h.symm
            subst hu''
            rw [G2 q hnd.1]
            exact alookup_aset_self _ _ _
          · exact G4 q hq' u' hu' hbq
        · rw [G5]
        · rw [G6]


/-- C3: for every cached chat over a well-formed active map, `closeChat`
returns exactly the derived ids of those members whose chat-id list becomes
empty after the splice — each of whom is removed from the active-users map
(its `currentChatId` is cleared just before the record is deleted) — leaves
every member who still has another chat active with only the chat id spliced
out of its list, does not include such members in the returned list, and
removes the chat's entry from the chats map. -/
theorem closeChat_spec (s : LibState) (chatId : String) (chat : Chat)
    (hchat : getChat s chatId = some chat)
    (hnd : chat.userIds.Nodup)
    (hwf : KeyedByDerivedId s.active_users)
    (hclean : ∀ d ∈ chat.userIds, ScanClean s.active_users d)
    (hmem : ∀ d ∈ chat.userIds, hasKey s.active_users d = true) :
    ∃ inactiveList s',
      closeChat s chatId = (some inactiveList, s') ∧
      inactiveList = chat.userIds.filter (becomesEmpty s.active_users chatId) ∧
      (∀ d ∈ chat.userIds, becomesEmpty s.active_users chatId d = true →
        alookup s'.active_users d = none) ∧
      (∀ d ∈ chat.userIds, ∀ u, alookup s.active_users d = some u →
        becomesEmpty s.active_users chatId d = false →
        alookup s'.active_users d =
          some { u with chatIds := chatIdsAfterSplice u.chatIds chatId }) ∧
      (∀ k, k ∉ chat.userIds →
        alookup s'.active_users k = alookup s.active_users k) ∧
      alookup s'.chats chatId = none ∧
      s'.waiting_users = s.waiting_users := by
  obtain ⟨F1, F2, F3, F4, F5, F6⟩ :=
    closeChatMembersFold_spec chatId s.active_users chat.userIds [] s hnd
      (fun d _ => List.not_mem_nil d) (fun d _ => rfl) hmem hwf.2 hwf.1 hclean
  rcases hfold : chat.userIds.foldl (closeChatMemberStep chatId) ([], s)
    with ⟨inactive, s1⟩
  rw [hfold] at F1 F2 F3 F4 F5 F6
  refine ⟨inactive, { s1 with chats := aerase s1.chats chatId },
    ?_, ?_, ?_, ?_, ?_, ?_, ?_⟩
  · simp [closeChat, hchat, hfold]
  · simpa using F1
  · intro d hd hbe
    exact F3 d hd hbe
  · intro d hd u hu hbe
    exact F4 d hd u hu hbe
  · intro k hk
    exact F2 k hk
  · exact alookup_aerase_self _ _
  · exact F6

/-- Witness for C3: closing `"chat1"` in the sample state deactivates both
members (it was each one's only chat) and removes the chat entry. -/
theorem closeChat_spec_witness :
    ∃ L s', closeChat chatState "chat1" = (some L, s') ∧
      L = ["a@x", "lb"] ∧
      alookup s'.active_users "a@x" = none ∧
      alookup s'.active_users "lb" = none ∧
      alookup s'.chats "chat1" = none := by
  obtain ⟨L, s', h1, h2, h3, h4, h5, h6, h7⟩ :=
    closeChat_spec chatState "chat1" chatRecord (by decide) (by decide)
      ⟨by decide, by decide⟩ (by unfold ScanClean; decide) (by decide)
  refine ⟨L, s', h1, ?_, ?_, ?_, h6⟩
  · rw [h2]
    decide
  · exact h3 "a@x" (by decide) (by decide)
  · exact h3 "lb" (by decide) (by decide)

/-! ## C4: `addMessage` not-found failure -/

/-- C4: for every chat id and message payload, if the sender id resolves to no
active user or the chat id is not present in the chats map, `addMessage`
returns the not-found failure (`null`), performs no store write (empty trace)
and mutates no cache state. -/
theorem addMessage_not_found (s : LibState)
    (chatId text time senderId mtype msgId : String)
    (h : getActiveUser s senderId = none ∨ alookup s.chats chatId = none) :
    addMessage s chatId text time senderId mtype msgId = (none, s, []) := by
  rcases h with h | h
  · simp [addMessage, h]
  · cases hs : getActiveUser s senderId with
    | none => simp [addMessage, hs]
    | some sender => simp [addMessage, hs, h]

/-- Witness for C4: an unknown sender against the sample chat state. -/
theorem addMessage_not_found_witness :
    addMessage chatState "chat1" "hi" "t1" "nobody" "message" "m9" =
      (none, chatState, []) :=
  addMessage_not_found chatState "chat1" "hi" "t1" "nobody" "message" "m9"
    (Or.inl (by decide))

/-! ## C6: `editMessage` failure paths keep the cache unchanged -/

/-- C6: `editMessage` fails and leaves the whole state unchanged when the chat
is not in the chats map or the message id is not in the chat's cache map, and
a store failure likewise reports failure with the cached text unchanged. -/
theorem editMessage_failure_keeps_cache (s : LibState) (chatId id text : String)
    (storeOk : Bool) :
    (alookup s.chats chatId = none →
      editMessage s chatId id text storeOk = (false, s)) ∧
    (∀ chat, alookup s.chats chatId = some chat → alookup chat.messages id = none →
      editMessage s chatId id text storeOk = (false, s)) ∧
    editMessage s chatId id text false = (false, s) := by
  refine ⟨fun h => by simp [editMessage, h],
          fun chat hc hm => by simp [editMessage, hc, hm], ?_⟩
  cases hc : alookup s.chats chatId with
  | none => simp [editMessage, hc]
  | some chat =>
      cases hm : alookup chat.messages id with
      | none => simp [editMessage, hc, hm]
      | some m => simp [editMessage, hc, hm]

/-- Witness for C6: missing chat, missing message id, and store failure, all
on the sample state holding one message. -/
theorem editMessage_failure_keeps_cache_witness :
    editMessage msgState "chatX" "m1" "z" true = (false, msgState) ∧
    editMessage msgState "chat1" "missing" "z" true = (false, msgState) ∧
    editMessage msgState "chat1" "m1" "z" false = (false, msgState) :=
  ⟨(editMessage_failure_keeps_cache msgState "chatX" "m1" "z" true).1 (by decide),
   (editMessage_failure_keeps_cache msgState "chat1" "missing" "z" true).2.1
     { chatRecord with
        messages := [("m1", { id := "m1", message := "hello", senderId := "la",
                              time := "t1", mtype := "message" })] }
     (by decide) (by decide),
   (editMessage_failure_keeps_cache msgState "chat1" "m1" "z" false).2.2⟩

/-! ## C7: `addToWaitingList` duplicate handling -/

/-- C7 counterexample: with `"a@x"` already on the waiting list, a second
`addToWaitingList` for the same derived id completes normally — no error is
signalled — and silently replaces the existing record (the stored login id
becomes the new one and the map size does not change). -/
theorem addToWaitingList_duplicate_counterexample :
    hasKey waitingState.waiting_users "a@x" = true ∧
    (alookup (addToWaitingList waitingState "lz" (some "a@x") "s9").waiting_users
        "a@x").map (fun u => u.loginId) = some "lz" ∧
    getWaitingUserLen (addToWaitingList waitingState "lz" (some "a@x") "s9") =
      getWaitingUserLen waitingState := by decide

/-- C7 amended: `addToWaitingList` inserts a fresh waiting record keyed by the
derived id (email if present, else login id) and leaves every other key and
the other maps untouched; if an entry with that derived id is already present
it is silently overwritten — no error is signalled. -/
theorem addToWaitingList_inserts_amended (s : LibState) (loginId : String)
    (email : Option String) (socketId : String) :
    alookup (addToWaitingList s loginId email socketId).waiting_users
        (email.getD loginId) =
      some { id := none, email := email, loginId := loginId,
             socketIds := [socketId], currentChatId := none, chatIds := [] } ∧
    (∀ k, k ≠ email.getD loginId →
      alookup (addToWaitingList s loginId email socketId).waiting_users k =
        alookup s.waiting_users k) ∧
    (addToWaitingList s loginId email socketId).active_users = s.active_users ∧
    (addToWaitingList s loginId email socketId).chats = s.chats :=
  ⟨by simp [addToWaitingList],
   fun k hk => by simp [addToWaitingList, hk],
   rfl, rfl⟩

/-- Witness for C7's amended statement: inserting `sampleUserA`'s data into
the empty state stores exactly `sampleUserA` at `"a@x"` and nothing else. -/
theorem addToWaitingList_inserts_amended_witness :
    alookup (addToWaitingList emptyState "la" (some "a@x") "s1").waiting_users
      "a@x" = some sampleUserA ∧
    alookup (addToWaitingList emptyState "la" (some "a@x") "s1").waiting_users
      "zz" = none :=
  ⟨(addToWaitingList_inserts_amended emptyState "la" (some "a@x") "s1").1,
   (addToWaitingList_inserts_amended emptyState "la" (some "a@x") "s1").2.1 "zz"
     (by decide)⟩

/-! ## C5: successful `addMessage` -/

/-- C5 counterexample: in the sample chat state the sender id `"la"` (a login
id) resolves to the active user whose derived id is `"a@x"`, yet the cached
message produced by `addMessage` is annotated with the caller-supplied
`"la"`, not with the sender's derived `emailOrLoginId`. -/
theorem addMessage_senderId_counterexample :
    (getActiveUser chatState "la").map User.emailOrLoginId = some "a@x" ∧
    ((addMessage chatState "chat1" "hello" "t1" "la" "message" "m1").1.map
      (fun m => m.senderId)) = some "la" ∧
    ((addMessage chatState "chat1" "hello" "t1" "la" "message"
        "m1").2.1.chats.map (fun c => (c.2.messages.map (fun q => q.2.senderId)))) =
      [["la"]] ∧
    ("la" : String) ≠ "a@x" := by decide

/-- C5 amended: for every cached chat and active sender, a successful
`addMessage` creates the message store record with the sender's persisted
identity and the caller-supplied time, appends the new message id to the
chat's store record, inserts the message into the chat's in-cache message map
keyed by the new message id — annotated with the caller-supplied sender id
(which equals the sender's derived `emailOrLoginId` only when the caller
passes that id) — and returns that cached message projection. -/
theorem addMessage_success_amended (s : LibState)
    (chatId text time senderId mtype msgId : String) (sender : User) (chat : Chat)
    (hSender : getActiveUser s senderId = some sender)
    (hChat : alookup s.chats chatId = some chat) :
    ∃ m chat',
      (addMessage s chatId text time senderId mtype msgId).1 = some m ∧
      (addMessage s chatId text time senderId mtype msgId).2.2 =
        [StoreOp.createMessage text sender.id mtype time,
         StoreOp.pushMessageRef chatId msgId] ∧
      m.id = msgId ∧ m.message = text ∧ m.time = time ∧ m.mtype = mtype ∧
      m.senderId = senderId ∧
      alookup (addMessage s chatId text time senderId mtype msgId).2.1.chats
        chatId = some chat' ∧
      chat'.userIds = chat.userIds ∧ chat'.id = chat.id ∧
      alookup chat'.messages msgId = some m ∧
      (∀ k, k ≠ msgId → alookup chat'.messages k = alookup chat.messages k) ∧
      (∀ c, c ≠ chatId →
        alookup (addMessage s chatId text time senderId mtype msgId).2.1.chats c =
          alookup s.chats c) ∧
      (addMessage s chatId text time senderId mtype msgId).2.1.active_users =
        s.active_users ∧
      (addMessage s chatId text time senderId mtype msgId).2.1.waiting_users =
        s.waiting_users := by
  refine ⟨⟨msgId, text, senderId, time, mtype⟩, ?_, ?_, ?_, rfl, rfl, rfl, rfl, rfl,
    ?_, ?_, ?_, ?_, ?_, ?_, ?_, ?_⟩
  case _ => exact { chat with
    messages := aset chat.messages msgId ⟨msgId, text, senderId, time, mtype⟩ }
  all_goals simp [addMessage, hSender, hChat]
  · intro k hk
    simp [hk]
  · intro c hc
    simp [hc]

/-- Witness for C5's amended statement: the sample call stores the sender
reference `"id1"` and the caller time, and annotates the cached message with
the supplied sender id. -/
theorem addMessage_success_amended_witness :
    ∃ m, (addMessage chatState "chat1" "hello" "t1" "la" "message" "m1").1 =
        some m ∧
      m.senderId = "la" ∧
      (addMessage chatState "chat1" "hello" "t1" "la" "message" "m1").2.2 =
        [StoreOp.createMessage "hello" (some "id1") "message" "t1",
         StoreOp.pushMessageRef "chat1" "m1"] := by
  obtain ⟨m, chat', h1, h2, h3, h4, h5, h6, h7, h8, h9, h10, h11, h12, h13, h14, h15⟩ :=
    addMessage_success_amended chatState "chat1" "hello" "t1" "la" "message" "m1"
      activeUserA chatRecord (by decide) (by decide)
  exact ⟨m, h1, h7, h2⟩

/-! ## C8: bootstrap behaviour on an unresolvable message sender -/

theorem initChatsLoop_frame (s : LibState) (l : List StoreChat) :
    (initChatsLoop s l).1.active_users = s.active_users ∧
    (initChatsLoop s l).1.waiting_users = s.waiting_users := by
  induction l generalizing s with
  | nil => exact ⟨rfl, rfl⟩
  | cons c rest ih =>
      cases hb : buildMessages [] c.messages with
      | none => simp [initChatsLoop, hb]
      | some msgs => simpa [initChatsLoop, hb] using ih _

theorem initChatsLoop_append (s : LibState) (l1 l2 : List StoreChat) :
    initChatsLoop s (l1 ++ l2) =
      if (initChatsLoop s l1).2 = true then initChatsLoop (initChatsLoop s l1).1 l2
      else initChatsLoop s l1 := by
  induction l1 generalizing s with
  | nil => simp [initChatsLoop]
  | cons c rest ih =>
      cases hb : buildMessages [] c.messages with
      | none => simp [initChatsLoop, hb]
      | some msgs => simp [initChatsLoop, hb, ih]

theorem buildMessages_none_of_null_sender (acc : AList Message)
    (pre post : List StoreMessage) (m : StoreMessage) (hm : m.sender = none) :
    buildMessages acc (pre ++ m :: post) = none := by
  induction pre generalizing acc with
  | nil => simp [buildMessages, hm]
  | cons q rest ih =>
      cases hq : q.sender with
      | none => simp [buildMessages, hq]
      | some u => simp [buildMessages, hq, ih]

/-- C8 counterexample: in the sample store the second chat holds a message
with an unresolvable sender. The claim says every other chat is still loaded
and the active map is still populated; in fact the chat after the broken one
(`"c3"`) is never loaded and the active-users map stays empty, because the
null-sender `return` exits the whole `init`, not just that chat's message
loop. -/
theorem init_abort_counterexample :
    alookup (init emptyState sampleStore).chats "c1" ≠ none ∧
    alookup (init emptyState sampleStore).chats "c3" = none ∧
    (init emptyState sampleStore).active_users = [] := by decide

/-- C8 amended: a message whose sender cannot be resolved aborts the entire
bootstrap pass — the resulting cache is exactly what the chat loop had built
before reaching the broken chat: the broken chat and every later chat are not
loaded, and the active-users map is never populated. -/
theorem init_null_sender_aborts_whole_pass (s : LibState) (store : Store)
    (pre post : List StoreChat) (bad : StoreChat)
    (hsplit : store.chats = pre ++ bad :: post)
    (hbad : ∃ m ∈ bad.messages, m.sender = none) :
    init s store = (initChatsLoop s pre).1 ∧
    (init s store).active_users = s.active_users := by
  obtain ⟨m, hmem, hm⟩ := hbad
  obtain ⟨p1, p2, hdecomp⟩ := List.append_of_mem hmem
  have hb : buildMessages [] bad.messages = none := by
    rw [hdecomp]
    exact buildMessages_none_of_null_sender [] p1 p2 m hm
  have hloop : initChatsLoop s store.chats = ((initChatsLoop s pre).1, false) := by
    rw [hsplit, initChatsLoop_append]
    by_cases h2 : (initChatsLoop s pre).2 = true
    · simp [h2, initChatsLoop, hb]
    · have h2f : (initChatsLoop s pre).2 = false := by simpa using h2
      simp only [h2, if_false]
      cases hp : initChatsLoop s pre with
      | mk a b =>
          rw [hp] at h2f
          simp at h2f
          simp [h2f]
  have hinit : init s store = (initChatsLoop s pre).1 := by
    simp [init, hloop]
  exact ⟨hinit, by rw [hinit]; exact (initChatsLoop_frame s pre).1⟩

/-- Witness for C8's amended statement on the sample store: bootstrap stops
after loading only the first chat, and the active map stays as it was. -/
theorem init_null_sender_aborts_whole_pass_witness :
    init emptyState sampleStore = (initChatsLoop emptyState [storeChat1]).1 ∧
    (init emptyState sampleStore).active_users = emptyState.active_users :=
  init_null_sender_aborts_whole_pass emptyState sampleStore [storeChat1]
    [storeChat3] storeChat2 rfl ⟨storeMsgBad, by decide, rfl⟩

/-! ## C9: the waiting/active exclusivity invariant -/

theorem getRandomPair_state (s : LibState) (i1 i2 : Nat) :
    (getRandomPairFromWaitingList s i1 i2).2.active_users = s.active_users ∧
    (getRandomPairFromWaitingList s i1 i2).2.chats = s.chats ∧
    ∀ k, hasKey (getRandomPairFromWaitingList s i1 i2).2.waiting_users k = true →
      hasKey s.waiting_users k = true := by
  cases h1 : (akeys s.waiting_users)[i1]? with
  | none =>
      cases h2 : (akeys s.waiting_users)[i2]? with
      | none => simp [getRandomPairFromWaitingList, pairDraw, h1, h2]
      | some b =>
          refine ⟨?_, ?_, ?_⟩ <;>
            simp [getRandomPairFromWaitingList, pairDraw, delWaitingUser, h1, h2]
          intro k hk
          exact hasKey_of_hasKey_aerase hk
  | some a =>
      cases h2 : ((akeys s.waiting_users).eraseIdx i1)[i2]? with
      | none =>
          refine ⟨?_, ?_, ?_⟩ <;>
            simp [getRandomPairFromWaitingList, pairDraw, delWaitingUser, h1, h2]
          intro k hk
          exact hasKey_of_hasKey_aerase hk
      | some b =>
          refine ⟨?_, ?_, ?_⟩ <;>
            simp [getRandomPairFromWaitingList, pairDraw, delWaitingUser, h1, h2]
          intro k hk
          exact hasKey_of_hasKey_aerase (hasKey_of_hasKey_aerase hk)

theorem createChatFold_state (chatId : String) (inputs : List (User × String)) :
    ∀ (s : LibState) (done : List User),
    (inputs.foldl (createChatUserStep chatId) (s, done)).1.waiting_users =
      s.waiting_users ∧
    (inputs.foldl (createChatUserStep chatId) (s, done)).1.chats = s.chats ∧
    ∀ k, hasKey (inputs.foldl (createChatUserStep chatId) (s, done)).1.active_users
        k = true →
      hasKey s.active_users k = true ∨ ∃ p ∈ inputs, p.1.emailOrLoginId = k := by
  induction inputs with
  | nil => intro s done; simp
  | cons p rest ih =>
      intro s done
      obtain ⟨hw, hc, hk⟩ := ih (addActiveUser s { p.1 with
        id := some p.2
        currentChatId := some chatId
        chatIds := p.1.chatIds ++ [chatId] }) (done ++ [{ p.1 with
        id := some p.2
        currentChatId := some chatId
        chatIds := p.1.chatIds ++ [chatId] }])
      refine ⟨by simpa [createChatUserStep, addActiveUser] using hw,
              by simpa [createChatUserStep, addActiveUser] using hc, ?_⟩
      intro k hkk
      have := hk k (by simpa [createChatUserStep] using hkk)
      rcases this with h | h
      · simp only [addActiveUser] at h
        rcases hasKey_of_hasKey_aset h with h' | h'
        · exact Or.inl h'
        · refine Or.inr ⟨p, List.mem_cons_self _ _, ?_⟩
          rw [emailOrLoginId_update] at h'
          exact h'.symm
      · obtain ⟨q, hq, hqe⟩ := h
        exact Or.inr ⟨q, List.mem_cons_of_mem _ hq, hqe⟩

theorem closeChatMemberStep_keys (chatId : String) (acc : List String × LibState)
    (d : String) :
    (closeChatMemberStep chatId acc d).2.waiting_users = acc.2.waiting_users ∧
    (closeChatMemberStep chatId acc d).2.chats = acc.2.chats ∧
    ∀ k, hasKey (closeChatMemberStep chatId acc d).2.active_users k = true →
      hasKey acc.2.active_users k = true := by
  obtain ⟨inactive, st⟩ := acc
  cases hf : getActiveUserEntry st d with
  | none => simp [closeChatMemberStep, hf]
  | some kv =>
      obtain ⟨key, user⟩ := kv
      have hkmem : (key, user) ∈ st.active_users :=
        List.mem_of_find?_eq_some hf
      have hkey : hasKey st.active_users key = true :=
        (hasKey_iff_mem_akeys _ _).mpr (List.mem_map_of_mem Prod.fst hkmem)
      have haset : ∀ (v : User) (k : String),
          hasKey (aset st.active_users key v) k = true →
          hasKey st.active_users k = true := by
        intro v k h
        rcases hasKey_of_hasKey_aset h with h' | h'
        · exact h'
        · exact h' ▸ hkey
      cases hc : getChatsCount { st with active_users := aset st.active_users key { user with chatIds := chatIdsAfterSplice user.chatIds chatId } } d with
      | none =>
          refine ⟨?_, ?_, ?_⟩ <;> simp [closeChatMemberStep, hf, hc, delActiveUser]
          intro k hk
          exact haset _ k hk
      | some n =>
          cases n with
          | zero =>
              refine ⟨?_, ?_, ?_⟩ <;>
                simp [closeChatMemberStep, hf, hc, delActiveUser]
              intro k hk
              have h1 := hasKey_of_hasKey_aerase hk
              rcases hasKey_of_hasKey_aset h1 with h' | h'
              · exact haset _ k h'
              · exact h' ▸ hkey
          | succ n =>
              refine ⟨?_, ?_, ?_⟩ <;>
                simp [closeChatMemberStep, hf, hc, delActiveUser]
              intro k hk
              exact haset _ k hk

theorem closeChatMembersFold_state (chatId : String) (ms : List String) :
    ∀ (acc : List String × LibState),
    (ms.foldl (closeChatMemberStep chatId) acc).2.waiting_users =
      acc.2.waiting_users ∧
    (ms.foldl (closeChatMemberStep chatId) acc).2.chats = acc.2.chats ∧
    ∀ k, hasKey (ms.foldl (closeChatMemberStep chatId) acc).2.active_users k = true →
      hasKey acc.2.active_users k = true := by
  induction ms with
  | nil => intro acc; simp
  | cons d rest ih =>
      intro acc
      obtain ⟨hw, hc, hk⟩ := ih (closeChatMemberStep chatId acc d)
      obtain ⟨hw1, hc1, hk1⟩ := closeChatMemberStep_keys chatId acc d
      exact ⟨by simpa [hw1] using hw, by simpa [hc1] using hc,
             fun k h => hk1 k (hk k h)⟩

theorem closeChat_state (s : LibState) (chatId : String) :
    (closeChat s chatId).2.waiting_users = s.waiting_users ∧
    ∀ k, hasKey (closeChat s chatId).2.active_users k = true →
      hasKey s.active_users k = true := by
  cases hc : getChat s chatId with
  | none => simp [closeChat, hc]
  | some chat =>
      rcases hfold : chat.userIds.foldl (closeChatMemberStep chatId) ([], s)
        with ⟨inactive, s1⟩
      obtain ⟨hw, hcc, hk⟩ := closeChatMembersFold_state chatId chat.userIds ([], s)
      rw [hfold] at hw hcc hk
      refine ⟨?_, ?_⟩ <;> simp [closeChat, hc, hfold]
      · exact hw
      · intro k h
        exact hk k h

/-- C9 amended: the waiting/active exclusivity invariant is not enforced by
the code (see the counterexample); it is preserved by every operation exactly
under the intended calling discipline (`opGuard`): `addToWaitingList` is only
invoked for ids not currently active, and `createChat`/`addActiveUser` only
for users no longer waiting. Under those guards the two maps stay disjoint,
and every operation other than `createChat`/`addActiveUser` adds no key to
the active map — promotion happens only as part of chat creation. -/
theorem step_disjoint_amended (s : LibState) (op : Op)
    (hd : MapsDisjoint s) (hg : opGuard s op) :
    MapsDisjoint (step s op) ∧
    (opAddsActive op = false →
      ∀ k, hasKey (step s op).active_users k = true →
        hasKey s.active_users k = true) := by
  cases op with
  | opAddToWaitingList loginId email socketId =>
      refine ⟨?_, fun _ k hk => by simpa [step, addToWaitingList] using hk⟩
      intro k hk
      simp only [step, addToWaitingList] at hk ⊢
      by_cases hkd : k = email.getD loginId
      · subst hkd
        exact hg
      · rw [hasKey_aset_ne _ _ _ _ hkd] at hk
        exact hd k hk
  | opPickPair i1 i2 =>
      obtain ⟨ha, hcc, hw⟩ := getRandomPair_state s i1 i2
      refine ⟨?_, fun _ k hk => ?_⟩
      · intro k hk
        rw [show step s (Op.opPickPair i1 i2) =
          (getRandomPairFromWaitingList s i1 i2).2 from rfl] at hk ⊢
        rw [ha]
        exact hd k (hw k hk)
      · rw [show step s (Op.opPickPair i1 i2) =
          (getRandomPairFromWaitingList s i1 i2).2 from rfl, ha] at hk
        exact hk
  | opCreateChat chatId createdAt inputs =>
      refine ⟨?_, fun hfalse => by simp [opAddsActive] at hfalse⟩
      intro k hk
      obtain ⟨hw, hcc, hka⟩ := createChatFold_state chatId inputs s []
      have hstepw : (step s (Op.opCreateChat chatId createdAt inputs)).waiting_users =
          s.waiting_users := by
        simpa [step, createChat] using hw
      have hstepa : (step s (Op.opCreateChat chatId createdAt inputs)).active_users =
          (inputs.foldl (createChatUserStep chatId) (s, [])).1.active_users := by
        simp [step, createChat]
      rw [hstepw] at hk
      rw [hstepa, ← Bool.not_eq_true]
      intro hcon
      rcases hka k hcon with h | h
      · rw [hd k hk] at h
        exact Bool.false_ne_true h
      · obtain ⟨p, hp, hpe⟩ := h
        have hgp := hg p hp
        rw [hpe] at hgp
        rw [hgp] at hk
        exact Bool.false_ne_true hk
  | opCloseChat chatId =>
      obtain ⟨hw, hk⟩ := closeChat_state s chatId
      refine ⟨?_, fun _ k h => ?_⟩
      · intro k h
        rw [show step s (Op.opCloseChat chatId) = (closeChat s chatId).2 from rfl, hw] at h
        rw [show step s (Op.opCloseChat chatId) = (closeChat s chatId).2 from rfl]
        rw [← Bool.not_eq_true]
        intro hcon
        have hck := hk k hcon
        rw [hd k h] at hck
        exact Bool.false_ne_true hck
      · rw [show step s (Op.opCloseChat chatId) = (closeChat s chatId).2 from rfl] at h
        exact hk k h
  | opDelActiveUser u =>
      refine ⟨?_, fun _ k hk => ?_⟩
      · intro k hk
        simp only [step, delActiveUser] at hk ⊢
        rw [← Bool.not_eq_true]
        intro hcon
        have := hasKey_of_hasKey_aerase hcon
        rw [hd k hk] at this
        exact Bool.false_ne_true this
      · simp only [step, delActiveUser] at hk
        exact hasKey_of_hasKey_aerase hk
  | opDelWaitingUser id =>
      refine ⟨?_, fun _ k hk => by simpa [step, delWaitingUser] using hk⟩
      intro k hk
      simp only [step, delWaitingUser] at hk ⊢
      exact hd k (hasKey_of_hasKey_aerase hk)
  | opAddActiveUser u =>
      refine ⟨?_, fun hfalse => by simp [opAddsActive] at hfalse⟩
      intro k hk
      simp only [step, addActiveUser] at hk ⊢
      rw [← Bool.not_eq_true]
      intro hcon
      rcases hasKey_of_hasKey_aset hcon with h | h
      · rw [hd k hk] at h
        exact Bool.false_ne_true h
      · rw [h] at hk
        rw [hg] at hk
        exact Bool.false_ne_true hk

/-- C9 counterexample: `addActiveUser` followed by `addToWaitingList` for the
same derived id — both operations of the core, neither guarded by the code —
reaches a state where the id sits in the waiting and the active map at
once. -/
theorem user_in_both_maps_counterexample :
    hasKey (step (step emptyState (Op.opAddActiveUser sampleUserB))
        (Op.opAddToWaitingList "lb" none "s9")).waiting_users "lb" = true ∧
    hasKey (step (step emptyState (Op.opAddActiveUser sampleUserB))
        (Op.opAddToWaitingList "lb" none "s9")).active_users "lb" = true := by
  decide

/-- Witness for C9's amended statement: a guarded `addToWaitingList` on the
disjoint sample chat state keeps the maps disjoint. -/
theorem step_disjoint_amended_witness :
    MapsDisjoint (step chatState (Op.opAddToWaitingList "lc" none "s7")) := by
  have h := step_disjoint_amended chatState (Op.opAddToWaitingList "lc" none "s7")
    (fun k hk => by
      rw [show chatState.waiting_users = ([] : AList User) from rfl] at hk
      simp at hk)
    (show hasKey chatState.active_users "lc" = false by decide)
  exact h.1


/-! ## C10: `getChatsCount` is total only on active identifiers -/

/-- C10: when the argument matches an active user, `getChatsCount` returns
the length of that user's chat-id list; when no active user matches, the
unguarded `.chatIds` dereference faults (modelled as `none`) instead of
returning a count or an error value. -/
theorem getChatsCount_requires_active (s : LibState) (q : String) :
    (∀ u, getActiveUser s q = some u →
      getChatsCount s q = some u.chatIds.length) ∧
    ((∀ p ∈ s.active_users, userMatches p.2 q = false) →
      getChatsCount s q = none) := by
  constructor
  · intro u h
    simp [getChatsCount, h]
  · intro h
    have hnone : getActiveUserEntry s q = none := by
      simp only [getActiveUserEntry, List.find?_eq_none]
      intro p hp
      simp [h p hp]
    simp [getChatsCount, getActiveUser, hnone]

/-- Witness for C10: in the sample chat state, `"la"` matches an active user
with one chat, while `"zzz"` matches nobody and the call faults. -/
theorem getChatsCount_requires_active_witness :
    getChatsCount chatState "la" = some 1 ∧ getChatsCount chatState "zzz" = none :=
  ⟨(getChatsCount_requires_active chatState "la").1 activeUserA (by decide),
   (getChatsCount_requires_active chatState "zzz").2 (by decide)⟩

end Whisper
